import Mathlib

set_option maxHeartbeats 1000000

/-!
Shallow embedding of `endgame-benchmarks/tbgen.py`, a generator of random
won chess endgame positions with EPD annotations, and proofs of the
specification's claims about it.

The chess rules engine (python-chess) and the two tablebase oracles
(Syzygy for dtz, Gaviota for dtm) are external collaborators: they are
modelled as an abstract environment of functions.  The script's own logic
(`Generator.__init__`, `_generate_boards`, `_annotate_board`,
`_child_dtm_if_lost`) is translated line by line below.
-/

namespace Tbgen

/-- Board state as the generator sees it: an abstract placement (`pos`, the
piece placement, side to move, castling and en-passant state) together with
the half-move clock, which the script reads and writes directly
(`board.halfmove_clock`). -/
structure Board (P : Type) where
  pos : P
  halfmove_clock : Nat
deriving DecidableEq

/-- External collaborators of tbgen.py, as consumed by the script: the rules
engine and the two tablebase probes.  The tablebase probes and the legal move
list depend only on the placement (they ignore the half-move clock, as Syzygy
and Gaviota probes do); `is_game_over` is `board.is_game_over(claim_draw=True)`
and reads the clock, so it sees the full board; `push` applies a move,
updating the placement and the half-move clock; `fen` is the canonical
serialization used as the deduplication key; `format_id` is
`id_format.format(code=..., n=...)`. -/
structure Env (P M : Type) where
  is_valid : P → Bool
  probe_dtz : P → Int
  probe_dtm : P → Int
  legal_moves : P → List M
  push : Board P → M → Board P
  is_game_over : Board P → Bool
  is_checkmate : Board P → Bool
  fen : Board P → String
  format_id : Nat → String

/-- Ways a run of the generator aborts inside `_annotate_board` or
`_child_dtm_if_lost`: the `assert dtm < 0`, the `max()` of an empty
sequence, and the `assert 0 < parent_dtm <= 1 - best_child_dtm`. -/
inductive GenError where
  | assertChildDtm
  | noWinningMove
  | assertParent
deriving DecidableEq

/-- A mutable board as python-chess maintains it: the current state plus the
stack of saved states that `board.pop()` restores from. -/
structure MBoard (P : Type) where
  cur : Board P
  stack : List (Board P)
deriving DecidableEq

/-- Model of `board.push(move)` on the mutable board: the previous state is
saved on the stack. -/
def pushB {P M : Type} (env : Env P M) (mb : MBoard P) (m : M) : MBoard P :=
  { cur := env.push mb.cur m, stack := mb.cur :: mb.stack }

/-- Model of `board.pop()` on the mutable board: restore the saved state. -/
def popB {P : Type} (mb : MBoard P) : MBoard P :=
  match mb.stack with
  | [] => mb
  | b :: rest => { cur := b, stack := rest }

/-- The body of `Generator._child_dtm_if_lost` (tbgen.py lines 111-120),
evaluated on the board resulting from `board.push(move)`.  Note that the
50-move-budget test reads `board.halfmove_clock` of the board after the push,
i.e. the half-move clock of the resulting position. -/
def child_dtm_core {P M : Type} (env : Env P M) (b2 : Board P) :
    Except GenError (Option Int) :=
  if env.is_game_over b2 then
    Except.ok (if env.is_checkmate b2 then some 0 else none)
  else
    let dtz := env.probe_dtz b2.pos
    if ¬((b2.halfmove_clock : Int) - 100 ≤ dtz ∧ dtz < 0) then Except.ok none
    else
      let dtm := env.probe_dtm b2.pos
      if dtm < 0 then Except.ok (some dtm) else Except.error GenError.assertChildDtm

/-- `Generator._child_dtm_if_lost` with the board mutation made explicit:
`push` the move, compute the classification, and `pop` in the `finally`
block, on every exit path (also when the assertion error propagates). -/
def child_dtm_if_lost_st {P M : Type} (env : Env P M) (mb : MBoard P) (m : M) :
    Except GenError (Option Int) × MBoard P :=
  let mb1 := pushB env mb m
  (child_dtm_core env mb1.cur, popB mb1)

/-- `Generator._child_dtm_if_lost` as a function of the (restored) board:
`some dtm` when the move is winning, `none` when it is losing, an error when
the `assert dtm < 0` fires. -/
def child_dtm_if_lost {P M : Type} (env : Env P M) (b : Board P) (m : M) :
    Except GenError (Option Int) :=
  (child_dtm_if_lost_st env { cur := b, stack := [] } m).1

/-- The classification value of one reply on the non-aborting paths (the
value `_child_dtm_if_lost` returns when its assertion does not fire). -/
def childVal {P M : Type} (env : Env P M) (b : Board P) (m : M) : Option Int :=
  match child_dtm_if_lost env b m with
  | Except.ok v => v
  | Except.error _ => none

/-- The dtm values of the winning replies, in legal-move order: the values of
`children_dtm` in `_annotate_board` that are not `None`. -/
def winning_dtms {P M : Type} (env : Env P M) (b : Board P) : List Int :=
  (env.legal_moves b.pos).filterMap (fun m => childVal env b m)

/-- The condition under which the `assert dtm < 0` in `_child_dtm_if_lost`
fires for a reply: the resulting position is not game over, it passes the
50-move-budget dtz test, and the mate-distance oracle reports a non-negative
value. -/
def child_assert_violation {P M : Type} (env : Env P M) (b : Board P) (m : M) : Prop :=
  env.is_game_over (env.push b m) = false ∧
  ((env.push b m).halfmove_clock : Int) - 100 ≤ env.probe_dtz (env.push b m).pos ∧
  env.probe_dtz (env.push b m).pos < 0 ∧
  0 ≤ env.probe_dtm (env.push b m).pos

instance {P M : Type} (env : Env P M) (b : Board P) (m : M) :
    Decidable (child_assert_violation env b m) := by
  unfold child_assert_violation; infer_instance

/-- The dictionary comprehension `{move: self._child_dtm_if_lost(board, move)
for move in legal_moves}` in `_annotate_board`: evaluated in move order, and
an assertion error in any entry aborts the whole annotation. -/
def collectChildren {P M : Type} (env : Env P M) (b : Board P) :
    List M → Except GenError (List (M × Option Int))
  | [] => Except.ok []
  | m :: ms => do
    let r ← child_dtm_if_lost env b m
    let rest ← collectChildren env b ms
    Except.ok ((m, r) :: rest)

/-- Python `max()` over a sequence of integers: `none` on the empty sequence
(where Python raises `ValueError`). -/
def maxDtm : List Int → Option Int
  | [] => none
  | x :: xs =>
    match maxDtm xs with
    | none => some x
    | some y => some (max x y)

/-- The EPD annotation record built by `_annotate_board`: identifier, the
optional `hmvc` opcode (present when the clock is nonzero), the `bm` optimal
move list, the optional `am` forfeiting move list (present when nonempty),
the `dm` full-move mate distance, and whether the valueless `R50` opcode is
present. -/
structure EpdInfo (M : Type) where
  id : String
  hmvc : Option Nat
  bm : List M
  am : Option (List M)
  dm : Int
  r50 : Bool
deriving DecidableEq

/-- The tail of `Generator._annotate_board` (tbgen.py lines 91-107), given
the computed `children_dtm` entries in legal-move order: the `max()` of the
non-`None` values (an empty sequence raises `ValueError`), the `bm` and `am`
move lists, the parent assertion `assert 0 < parent_dtm <= 1 - best_child_dtm`,
the `dm` opcode `int((parent_dtm + 1) / 2)` — float division truncated toward
zero, which on the `0 < parent_dtm` path is `Int.tdiv` — and the `R50`
marker. -/
def annotate_core {P M : Type} (env : Env P M) (b : Board P) (n : Nat)
    (children : List (M × Option Int)) : Except GenError (EpdInfo M) :=
  match maxDtm (children.filterMap (fun p => p.2)) with
  | none => Except.error GenError.noWinningMove
  | some best =>
    let bm := (children.filter (fun p => decide (p.2 = some best))).map (fun p => p.1)
    let am := (children.filter (fun p => decide (p.2 = (none : Option Int)))).map
      (fun p => p.1)
    let pd := env.probe_dtm b.pos
    if 0 < pd ∧ pd ≤ 1 - best then
      Except.ok
        { id := env.format_id n,
          hmvc := if b.halfmove_clock ≠ 0 then some b.halfmove_clock else none,
          bm := bm,
          am := if am.isEmpty then none else some am,
          dm := (pd + 1).tdiv 2,
          r50 := decide (pd < 1 - best) }
    else Except.error GenError.assertParent

/-- `Generator._annotate_board` (tbgen.py lines 80-107): compute the
`children_dtm` classifications of all legal moves (any assertion error
aborts), then the annotation record.  `n` stands for
`len(self._unique_boards)`. -/
def annotate_board {P M : Type} (env : Env P M) (b : Board P) (n : Nat) :
    Except GenError (EpdInfo M) := do
  let children ← collectChildren env b (env.legal_moves b.pos)
  annotate_core env b n children

/-- Rejection statistics of the sampling loop (`self.stats`). -/
structure Stats where
  invalid : Nat
  loss : Nat
  draw : Nat
  cursed_win : Nat
  duplicate : Nat
deriving DecidableEq

/-- Mutable state of the sampling loop: the `_unique_boards` set of seen
serializations and the statistics counter. -/
structure GenState where
  seen : List String
  stats : Stats
deriving DecidableEq

/-- One random draw of the sampling loop: the placement obtained from
`random.sample(chess.SQUARES, ...)` plus `set_piece_map`, and the random
source for `random.randint(0, n)` (the library guarantees a result in
`[0, n]`; that contract is a hypothesis of the theorems below). -/
structure Draw (P : Type) where
  pos : P
  rand : Nat → Nat

/-- One iteration of the `while True` loop of `Generator._generate_boards`
(tbgen.py lines 58-78): validity filter, dtz filter with statistics by sign,
half-move clock assignment via `random.randint(0, 100 - dtz)`, and
deduplication keyed on `board.fen()` computed after the clock was set.
Returns the emitted board (if any) and the updated state. -/
def gen_step {P M : Type} (env : Env P M) (st : GenState) (d : Draw P) :
    Option (Board P) × GenState :=
  if env.is_valid d.pos = false then
    (none, { st with stats := { st.stats with invalid := st.stats.invalid + 1 } })
  else
    let dtz := env.probe_dtz d.pos
    if 0 < dtz ∧ dtz ≤ 100 then
      let clock := d.rand (100 - dtz).toNat
      let b : Board P := { pos := d.pos, halfmove_clock := clock }
      let key := env.fen b
      if key ∈ st.seen then
        (none, { st with stats := { st.stats with duplicate := st.stats.duplicate + 1 } })
      else
        (some b, { st with seen := key :: st.seen })
    else
      (none, { st with stats :=
        if dtz < 0 then { st.stats with loss := st.stats.loss + 1 }
        else if dtz = 0 then { st.stats with draw := st.stats.draw + 1 }
        else { st.stats with cursed_win := st.stats.cursed_win + 1 } })

/-- `Generator._generate_boards` run over a finite list of random draws:
the list of boards it yields and the final state. -/
def generate_boards {P M : Type} (env : Env P M) :
    List (Draw P) → GenState → List (Board P) × GenState
  | [], st => ([], st)
  | d :: ds, st =>
    match gen_step env st d with
    | (none, st1) => generate_boards env ds st1
    | (some b, st1) =>
      let r := generate_boards env ds st1
      (b :: r.1, r.2)

/-- White non-king piece symbols, the character class `[QRBNP]`. -/
def isWhitePiece (c : Char) : Bool :=
  c = 'Q' || c = 'R' || c = 'B' || c = 'N' || c = 'P'

/-- Black non-king piece symbols, the character class `[qrbnp]`. -/
def isBlackPiece (c : Char) : Bool :=
  c = 'q' || c = 'r' || c = 'b' || c = 'n' || c = 'p'

/-- Scanner for the regex `K[QRBNP]+k`: when the string starts with `K`,
then one or more of `QRBNP`, then `k`, returns the remaining suffix.  Since
`k` is not in `[QRBNP]`, any regex match of `K[QRBNP]+k` against a prefix
consumes exactly the maximal run of white pieces, so this scanner captures
all of them. -/
def code_scan (s : List Char) : Option (List Char) :=
  match s with
  | 'K' :: rest =>
    if rest.takeWhile isWhitePiece = [] then none
    else
      match rest.dropWhile isWhitePiece with
      | 'k' :: bs => some bs
      | _ => none
  | _ => none

/-- Truthiness of `re.match(r'K[QRBNP]+k[qrbnp]*', code)`: `re.match`
anchors at the start only, and `[qrbnp]*` can match the empty string, so a
match exists exactly when the string starts with `K`, then one or more of
`QRBNP`, then `k` — whatever follows is irrelevant. -/
def code_match (s : List Char) : Bool :=
  (code_scan s).isSome

/-- Modelled from the spec: the material-signature shape the spec describes,
"one white king, one or more white non-king pieces, one black king, zero or
more black non-king pieces" and nothing else (a fully anchored match of
`K[QRBNP]+k[qrbnp]*`).  Used to compare the spec's anchored reading with the
prefix semantics of `re.match` in the source. -/
def code_exact (s : List Char) : Bool :=
  match code_scan s with
  | some bs => bs.all isBlackPiece
  | none => false

/-- The symbols accepted by `chess.Piece.from_symbol`. -/
def pieceSymbols : List Char :=
  ['P', 'N', 'B', 'R', 'Q', 'K', 'p', 'n', 'b', 'r', 'q', 'k']

/-- Ways `Generator.__init__` can fail: the `assert re.match(...)` on the
code string, or a `ValueError` from `chess.Piece.from_symbol` on a character
that is not a piece symbol. -/
inductive InitError where
  | assertFail
  | badSymbol
deriving DecidableEq

/-- `Generator.__init__` (tbgen.py lines 42-45) restricted to its validation
of the material-signature string: the regex assertion, then
`[chess.Piece.from_symbol(x) for x in code]`, which raises on the first
character that is not a piece symbol. -/
def generator_init (code : List Char) : Except InitError Unit :=
  if code_match code = false then Except.error InitError.assertFail
  else if code.all (fun c => decide (c ∈ pieceSymbols)) then Except.ok ()
  else Except.error InitError.badSymbol

/-- Modelled from the spec: "integer division that rounds toward positive
infinity", the ceiling division the spec uses to describe the `dm`
conversion. -/
def ceil_div (a b : Int) : Int :=
  -((-a).fdiv b)

deriving instance DecidableEq for Except

/-! Concrete instantiations of the environment, used to evaluate the
definitions on explicit inputs.  Positions are numbered: 0 is the parent
position, pushing move `m` from position `p` reaches position `p + 1 + m`. -/

/-- A well-behaved oracle environment: from the parent position 0 (dtm 3),
both legal replies 0 and 1 reach positions with dtz -50 and dtm -2. -/
def envA : Env Nat Nat :=
  { is_valid := fun _ => true,
    probe_dtz := fun p => if p = 0 then 60 else -50,
    probe_dtm := fun p => if p = 0 then 3 else -2,
    legal_moves := fun p => if p = 0 then [0, 1] else [],
    push := fun b m => { pos := b.pos + 1 + m, halfmove_clock := b.halfmove_clock + 1 },
    is_game_over := fun _ => false,
    is_checkmate := fun _ => false,
    fen := fun b => toString b.pos ++ "/" ++ toString b.halfmove_clock,
    format_id := fun n => "id" ++ toString n }

/-- The parent board for `envA`: position 0 with a zero half-move clock. -/
def bA : Board Nat := { pos := 0, halfmove_clock := 0 }

/-- An environment whose `push` increments the half-move clock (as a
non-zeroing chess move does).  Reply 0 reaches a position with dtz exactly
-100 and dtm -3; reply 1 reaches a position whose dtz passes the budget test
but whose dtm is non-negative. -/
def envB : Env Nat Nat :=
  { is_valid := fun _ => true,
    probe_dtz := fun p => if p = 1 then -100 else -50,
    probe_dtm := fun p => if p = 1 then -3 else 5,
    legal_moves := fun p => if p = 0 then [0, 1] else [],
    push := fun b m => { pos := b.pos + 1 + m, halfmove_clock := b.halfmove_clock + 1 },
    is_game_over := fun _ => false,
    is_checkmate := fun _ => false,
    fen := fun b => toString b.pos ++ "/" ++ toString b.halfmove_clock,
    format_id := fun n => "id" ++ toString n }

/-- The parent board for `envB`: position 0 with a zero half-move clock. -/
def bB : Board Nat := { pos := 0, halfmove_clock := 0 }

/-- An environment whose `push` preserves the half-move clock, with a reply
reaching a position whose dtz sits exactly on the lower bound
`halfmove_clock - 100` of the 50-move-budget test. -/
def envC : Env Nat Nat :=
  { is_valid := fun _ => true,
    probe_dtz := fun p => if p = 0 then 50 else -50,
    probe_dtm := fun p => if p = 0 then 11 else -7,
    legal_moves := fun p => if p = 0 then [0] else [],
    push := fun b _ => { pos := b.pos + 1, halfmove_clock := b.halfmove_clock },
    is_game_over := fun _ => false,
    is_checkmate := fun _ => false,
    fen := fun b => toString b.pos ++ "/" ++ toString b.halfmove_clock,
    format_id := fun n => "id" ++ toString n }

/-- The parent board for `envC`: position 0 with half-move clock 50. -/
def bC : Board Nat := { pos := 0, halfmove_clock := 50 }

/-! Theorems. -/

/-- C9: classifying one legal reply leaves the board object in exactly its
pre-move state on every exit path of `_child_dtm_if_lost` — the `finally`
block pops the pushed move whether the reply is classified winning, losing,
or the assertion error propagates, so the board seen by the caller is the
original one. -/
theorem child_restores_board {P M : Type} (env : Env P M) (mb : MBoard P) (m : M) :
    (child_dtm_if_lost_st env mb m).2 = mb :=
  rfl

/-- C1 (amended): characterization of `_child_dtm_if_lost`: a reply is
classified winning with distance `d` exactly when the move checkmates
(`d = 0`) or the game is not over, the dtz of the resulting position lies in
`[clock_after_move - 100, 0)` for the half-move clock of the resulting
position, and the dtm of the resulting position is negative (`d` being that
dtm); it is classified losing exactly when the move ends the game without
checkmate or the dtz budget test fails; and the assertion error is raised
exactly when the budget test passes but the dtm is non-negative. -/
theorem child_classification_iff {P M : Type} (env : Env P M) (b : Board P) (m : M) :
    (∀ d : Int,
      child_dtm_if_lost env b m = Except.ok (some d) ↔
        (env.is_game_over (env.push b m) = true ∧
          env.is_checkmate (env.push b m) = true ∧ d = 0) ∨
        (env.is_game_over (env.push b m) = false ∧
          ((env.push b m).halfmove_clock : Int) - 100 ≤ env.probe_dtz (env.push b m).pos ∧
          env.probe_dtz (env.push b m).pos < 0 ∧
          env.probe_dtm (env.push b m).pos < 0 ∧
          d = env.probe_dtm (env.push b m).pos)) ∧
    (child_dtm_if_lost env b m = Except.ok none ↔
      (env.is_game_over (env.push b m) = true ∧
        env.is_checkmate (env.push b m) = false) ∨
      (env.is_game_over (env.push b m) = false ∧
        ¬(((env.push b m).halfmove_clock : Int) - 100 ≤ env.probe_dtz (env.push b m).pos ∧
          env.probe_dtz (env.push b m).pos < 0))) ∧
    (child_dtm_if_lost env b m = Except.error GenError.assertChildDtm ↔
      child_assert_violation env b m) := by
  unfold child_dtm_if_lost child_dtm_if_lost_st pushB child_dtm_core child_assert_violation
  simp only
  split_ifs with h1 h2 h3 h4 <;>
    simp_all <;>
    omega

/-- C1 counterexample: in an environment where pushing the reply increments
the half-move clock (a non-zeroing move), a reply meeting every condition of
the claim stated with the clock before the move (game not over, dtz of the
resulting position in `[clock_before - 100, 0)`, negative dtm) is
nevertheless classified losing; and a reply passing the budget test whose
dtm is non-negative raises the fatal assertion instead of being classified
losing. -/
theorem child_classification_cex :
    child_dtm_if_lost envB bB 0 = Except.ok none ∧
    envB.is_game_over (envB.push bB 0) = false ∧
    (bB.halfmove_clock : Int) - 100 ≤ envB.probe_dtz (envB.push bB 0).pos ∧
    envB.probe_dtz (envB.push bB 0).pos < 0 ∧
    envB.probe_dtm (envB.push bB 0).pos < 0 ∧
    child_dtm_if_lost envB bB 1 = Except.error GenError.assertChildDtm := by
  decide

/-- C1 witness: evaluating the characterization on a concrete environment
where a reply passes the budget test with the clock of the resulting
position. -/
theorem child_classification_iff_witness :
    child_dtm_if_lost envA bA 0 = Except.ok (some (-2)) :=
  ((child_classification_iff envA bA 0).1 (-2)).mpr (by decide)

/-- C3 (amended): the lower bound of the 50-move-budget test is inclusive,
not strict: a reply whose resulting dtz exactly equals the resulting
position's half-move clock minus 100 (a negative value) passes the test and
is classified winning, provided the mate-distance oracle reports a negative
value for the resulting position. -/
theorem child_boundary_inclusive {P M : Type} (env : Env P M) (b : Board P) (m : M)
    (h1 : env.is_game_over (env.push b m) = false)
    (h2 : env.probe_dtz (env.push b m).pos = ((env.push b m).halfmove_clock : Int) - 100)
    (h3 : env.probe_dtz (env.push b m).pos < 0)
    (h4 : env.probe_dtm (env.push b m).pos < 0) :
    child_dtm_if_lost env b m = Except.ok (some (env.probe_dtm (env.push b m).pos)) := by
  have hb : ((env.push b m).halfmove_clock : Int) - 100 ≤ env.probe_dtz (env.push b m).pos :=
    le_of_eq h2.symm
  unfold child_dtm_if_lost child_dtm_if_lost_st pushB child_dtm_core
  simp_all

/-- C3 counterexample: a reply whose resulting dtz exactly equals the
half-move clock minus 100 — under both readings of the clock, since this
environment's `push` preserves it — is classified winning, not losing. -/
theorem child_boundary_cex :
    child_dtm_if_lost envC bC 0 = Except.ok (some (-7)) ∧
    child_dtm_if_lost envC bC 0 ≠ Except.ok none ∧
    envC.probe_dtz (envC.push bC 0).pos = ((envC.push bC 0).halfmove_clock : Int) - 100 ∧
    envC.probe_dtz (envC.push bC 0).pos = (bC.halfmove_clock : Int) - 100 := by
  decide

/-- C3 witness: the boundary theorem applied to a concrete environment with
dtz exactly on the bound. -/
theorem child_boundary_inclusive_witness :
    envC.is_game_over (envC.push bC 0) = false ∧
    envC.probe_dtz (envC.push bC 0).pos = ((envC.push bC 0).halfmove_clock : Int) - 100 ∧
    envC.probe_dtz (envC.push bC 0).pos < 0 ∧
    envC.probe_dtm (envC.push bC 0).pos < 0 ∧
    child_dtm_if_lost envC bC 0 = Except.ok (some (envC.probe_dtm (envC.push bC 0).pos)) :=
  ⟨by decide, by decide, by decide, by decide,
    child_boundary_inclusive envC bC 0 (by decide) (by decide) (by decide) (by decide)⟩

/-- White non-king piece symbols are valid piece symbols. -/
theorem white_mem (c : Char) (h : isWhitePiece c = true) : c ∈ pieceSymbols := by
  simp only [isWhitePiece, Bool.or_eq_true, decide_eq_true_eq] at h
  rcases h with ((((h | h) | h) | h) | h) <;> subst h <;> decide

/-- Black non-king piece symbols are valid piece symbols. -/
theorem black_mem (c : Char) (h : isBlackPiece c = true) : c ∈ pieceSymbols := by
  simp only [isBlackPiece, Bool.or_eq_true, decide_eq_true_eq] at h
  rcases h with ((((h | h) | h) | h) | h) <;> subst h <;> decide

/-- Shape of a string accepted by the scanner: a `K`, a nonempty run of
white pieces, a `k`, then the returned suffix. -/
theorem scan_decomp (s bs : List Char) (h : code_scan s = some bs) :
    ∃ rest, s = 'K' :: rest ∧ rest.takeWhile isWhitePiece ≠ [] ∧
      rest.dropWhile isWhitePiece = 'k' :: bs := by
  unfold code_scan at h
  split at h
  next rest =>
    split_ifs at h with hw
    split at h
    next bs2 heq =>
      refine ⟨rest, rfl, hw, ?_⟩
      rw [heq]
      simpa using h
    next => simp at h
  next => simp at h

/-- A string of the exact shape the spec describes passes the prefix match
of the source. -/
theorem exact_imp_match (s : List Char) (h : code_exact s = true) :
    code_match s = true := by
  unfold code_exact at h
  unfold code_match
  cases hscan : code_scan s with
  | none => rw [hscan] at h; simp at h
  | some bs => simp [hscan]

/-- Every character of a string of the exact shape is a valid piece
symbol. -/
theorem exact_all_symbols (s : List Char) (h : code_exact s = true) :
    s.all (fun c => decide (c ∈ pieceSymbols)) = true := by
  unfold code_exact at h
  cases hscan : code_scan s with
  | none => rw [hscan] at h; simp at h
  | some bs =>
    rw [hscan] at h
    obtain ⟨rest, hs, hw, hd⟩ := scan_decomp s bs hscan
    subst hs
    simp only [List.all_eq_true, decide_eq_true_eq]
    intro x hx
    rcases List.mem_cons.mp hx with hK | hrest
    · subst hK; decide
    · rw [← List.takeWhile_append_dropWhile (p := isWhitePiece) (l := rest)] at hrest
      rcases List.mem_append.mp hrest with hwm | hdm
      · exact white_mem x (List.mem_takeWhile_imp hwm)
      · rw [hd] at hdm
        rcases List.mem_cons.mp hdm with hk | hb
        · subst hk; decide
        · rw [List.all_eq_true] at h
          exact black_mem x (h x hb)

/-- C10 (amended): the constructor's validation is a prefix match: it
succeeds exactly when the string starts with one white king, one or more
white non-king pieces and one black king — whatever follows — and every
character of the string is a valid piece symbol; in particular every string
of the spec's exact shape (black non-king pieces only after the black king,
and nothing else) is accepted, but acceptance does not force that exact
shape. -/
theorem generator_init_iff (code : List Char) :
    (generator_init code = Except.ok () ↔
      code_match code = true ∧ code.all (fun c => decide (c ∈ pieceSymbols)) = true) ∧
    (code_exact code = true → generator_init code = Except.ok ()) := by
  constructor
  · unfold generator_init
    split_ifs with h1 h2 <;> simp_all
  · intro h
    have hm := exact_imp_match code h
    have ha := exact_all_symbols code h
    unfold generator_init
    rw [hm]
    simp [ha]

/-- C10 counterexample: the string `KQkQ` is not of the spec's exact shape
(the character after the black king is not a black non-king piece), yet the
constructor accepts it, because `re.match` anchors only at the start of the
string. -/
theorem generator_init_cex :
    code_exact ['K', 'Q', 'k', 'Q'] = false ∧
    generator_init ['K', 'Q', 'k', 'Q'] = Except.ok () := by
  decide

/-- C10 witness: the accepted-shape direction evaluated on the concrete
signature `KQkq`. -/
theorem generator_init_iff_witness :
    generator_init ['K', 'Q', 'k', 'q'] = Except.ok () :=
  (generator_init_iff ['K', 'Q', 'k', 'q']).2 (by decide)

/-- Inversion of an emitting sampler iteration: the emitted board carries the
drawn placement and the clock returned by `randint(0, 100 - dtz)`, the dtz
filter passed, the serialization was fresh, and it was added to the seen
set. -/
theorem gen_step_some {P M : Type} (env : Env P M) (st : GenState) (d : Draw P)
    (b : Board P) (st1 : GenState) (h : gen_step env st d = (some b, st1)) :
    b = { pos := d.pos, halfmove_clock := d.rand (100 - env.probe_dtz d.pos).toNat } ∧
    0 < env.probe_dtz d.pos ∧ env.probe_dtz d.pos ≤ 100 ∧
    env.fen b ∉ st.seen ∧ st1 = { st with seen := env.fen b :: st.seen } := by
  simp only [gen_step] at h
  split_ifs at h with h1 h2 h3 <;> simp_all
  obtain ⟨hb, hst⟩ := h
  subst hb
  exact hst.symm

/-- A non-emitting sampler iteration does not change the seen set. -/
theorem gen_step_none_seen {P M : Type} (env : Env P M) (st : GenState) (d : Draw P)
    (st1 : GenState) (h : gen_step env st d = (none, st1)) : st1.seen = st.seen := by
  simp only [gen_step] at h
  split_ifs at h <;> simp_all <;> rw [← h]

/-- A sampler iteration that reaches the deduplication test with a
serialization already seen rejects the position and counts it as a
duplicate. -/
theorem gen_step_duplicate {P M : Type} (env : Env P M) (st : GenState) (d : Draw P)
    (h1 : env.is_valid d.pos = true)
    (h2 : 0 < env.probe_dtz d.pos) (h3 : env.probe_dtz d.pos ≤ 100)
    (h4 : env.fen (Board.mk d.pos (d.rand (100 - env.probe_dtz d.pos).toNat)) ∈ st.seen) :
    gen_step env st d =
      (none, { st with stats := { st.stats with duplicate := st.stats.duplicate + 1 } }) := by
  simp only [gen_step]
  split_ifs with ha hb hc <;>
    first
      | rfl
      | (exact absurd h4 hc)
      | (exact absurd ⟨h2, h3⟩ hb)
      | (simp [h1] at ha)

/-- Invariant of the sampling loop: emitted serializations are pairwise
distinct, none was in the initial seen set, and the seen set only grows. -/
theorem generate_boards_inv {P M : Type} (env : Env P M) (ds : List (Draw P))
    (st0 : GenState) :
    ((generate_boards env ds st0).1.map (fun b => env.fen b)).Nodup ∧
    (∀ b ∈ (generate_boards env ds st0).1, env.fen b ∉ st0.seen) ∧
    (∀ k ∈ st0.seen, k ∈ (generate_boards env ds st0).2.seen) := by
  induction ds generalizing st0 with
  | nil => simp [generate_boards]
  | cons d ds ih =>
    rcases hg : gen_step env st0 d with ⟨r, st1⟩
    cases r with
    | none =>
      have hseen := gen_step_none_seen env st0 d st1 hg
      have h2 := ih st1
      simp only [generate_boards, hg]
      exact ⟨h2.1, fun b hb => hseen ▸ h2.2.1 b hb, fun k hk => h2.2.2 k (hseen ▸ hk)⟩
    | some b =>
      obtain ⟨hb, _, _, hfresh, hst1⟩ := gen_step_some env st0 d b st1 hg
      have h2 := ih st1
      have hsub : ∀ k ∈ st0.seen, k ∈ st1.seen := by
        intro k hk
        rw [hst1]
        exact List.mem_cons_of_mem _ hk
      simp only [generate_boards, hg]
      refine ⟨?_, ?_, ?_⟩
      · rw [List.map_cons, List.nodup_cons]
        refine ⟨?_, h2.1⟩
        intro hmem
        rw [List.mem_map] at hmem
        obtain ⟨b2, hb2, hfen⟩ := hmem
        have := h2.2.1 b2 hb2
        rw [hst1] at this
        exact this (hfen ▸ List.mem_cons_self _ _)
      · intro b2 hb2
        rcases List.mem_cons.mp hb2 with rfl | hb2
        · exact hfresh
        · intro hmem
          exact h2.2.1 b2 hb2 (hsub _ hmem)
      · intro k hk
        exact h2.2.2 k (hsub k hk)
/-- An environment for exercising the sampler: every placement is valid and
has dtz exactly 100 (a win forceable only with a fresh clock). -/
def envS : Env Nat Nat :=
  { is_valid := fun _ => true,
    probe_dtz := fun _ => 100,
    probe_dtm := fun _ => 1,
    legal_moves := fun _ => [],
    push := fun b _ => b,
    is_game_over := fun _ => false,
    is_checkmate := fun _ => false,
    fen := fun b => toString b.pos ++ "/" ++ toString b.halfmove_clock,
    format_id := fun n => toString n }

/-- A concrete draw: placement 7, a random source that always returns 0. -/
def dS : Draw Nat := { pos := 7, rand := fun _ => 0 }

/-- The empty initial sampler state. -/
def stEmpty : GenState := { seen := [], stats := Stats.mk 0 0 0 0 0 }

/-- C2: every position yielded by the sampler has `0 < dtz <= 100`, its
half-move clock is the value of `randint(0, 100 - dtz)` — so under the
randint contract `clock + dtz <= 100` always holds — and when dtz is exactly
100 the clock is deterministically 0 and the position is not rejected by the
dtz filter: it is either emitted or rejected only as a duplicate. -/
theorem sampler_bounds {P M : Type} (env : Env P M) :
    (∀ (ds : List (Draw P)) (st0 : GenState),
      (∀ d ∈ ds, ∀ n, d.rand n ≤ n) →
      ∀ b ∈ (generate_boards env ds st0).1,
        0 < env.probe_dtz b.pos ∧ env.probe_dtz b.pos ≤ 100 ∧
        (b.halfmove_clock : Int) + env.probe_dtz b.pos ≤ 100 ∧
        (env.probe_dtz b.pos = 100 → b.halfmove_clock = 0)) ∧
    (∀ (st : GenState) (d : Draw P) (b : Board P) (st1 : GenState),
      gen_step env st d = (some b, st1) →
      b.halfmove_clock = d.rand (100 - env.probe_dtz d.pos).toNat) ∧
    (∀ (st : GenState) (d : Draw P),
      (∀ n, d.rand n ≤ n) →
      env.is_valid d.pos = true →
      env.probe_dtz d.pos = 100 →
      (gen_step env st d).1 = some (Board.mk d.pos 0) ∨
      (gen_step env st d).2.stats.duplicate = st.stats.duplicate + 1) := by
  refine ⟨?_, ?_, ?_⟩
  · intro ds
    induction ds with
    | nil => intro st0 hr b hb; simp [generate_boards] at hb
    | cons d ds ih =>
      intro st0 hr b hb
      have hd : ∀ n, d.rand n ≤ n := hr d (List.mem_cons_self d ds)
      have hr2 : ∀ d2 ∈ ds, ∀ n, d2.rand n ≤ n :=
        fun d2 h2 => hr d2 (List.mem_cons_of_mem d h2)
      rcases hg : gen_step env st0 d with ⟨r, st1⟩
      simp only [generate_boards] at hb
      rw [hg] at hb
      cases r with
      | none => exact ih st1 hr2 b hb
      | some b2 =>
        rcases List.mem_cons.mp hb with rfl | hb2
        · obtain ⟨hbeq, hlt, hle, _, _⟩ := gen_step_some env st0 d b st1 hg
          subst hbeq
          have hrand := hd ((100 - env.probe_dtz d.pos).toNat)
          refine ⟨hlt, hle, ?_, ?_⟩
          · have hc : (d.rand ((100 - env.probe_dtz d.pos).toNat) : Int) +
                env.probe_dtz d.pos ≤ 100 := by omega
            exact hc
          · intro h100
            have h100b : env.probe_dtz d.pos = 100 := h100
            have hc : d.rand ((100 - env.probe_dtz d.pos).toNat) = 0 := by omega
            exact hc
        · exact ih st1 hr2 b hb2
  · intro st d b st1 h
    obtain ⟨hbeq, _, _, _, _⟩ := gen_step_some env st d b st1 h
    rw [hbeq]
  · intro st d hrand h1 h2
    simp only [gen_step]
    have hn : (100 - env.probe_dtz d.pos).toNat = 0 := by rw [h2]; rfl
    have hz : d.rand ((100 - env.probe_dtz d.pos).toNat) = 0 := by
      rw [hn]; exact Nat.le_zero.mp (hrand 0)
    split_ifs with ha hb hc
    · rw [h1] at ha; exact absurd ha (by simp)
    · right; rfl
    · left; rw [hz]
    all_goals exact absurd (by constructor <;> omega) hb

/-- C2 witness: the bounds evaluated on the board emitted from the concrete
draw `dS` in environment `envS` (dtz exactly 100, clock forced to 0). -/
theorem sampler_bounds_witness :
    0 < envS.probe_dtz (Board.mk 7 0).pos ∧ envS.probe_dtz (Board.mk 7 0).pos ≤ 100 ∧
    ((Board.mk 7 0).halfmove_clock : Int) + envS.probe_dtz (Board.mk 7 0).pos ≤ 100 ∧
    (envS.probe_dtz (Board.mk 7 0).pos = 100 → (Board.mk 7 0).halfmove_clock = 0) :=
  (sampler_bounds envS).1 [dS] stEmpty
    (by
      intro d hd n
      rw [List.mem_singleton] at hd
      subst hd
      exact Nat.zero_le n)
    (Board.mk 7 0) (by decide)

/-- C8: within one run no two emitted positions share their canonical
serialization (which is computed from the board after the random clock was
set, so the clock is part of the identity), no emitted position has a
serialization from the initial seen set, the seen set grows monotonically,
and a sampled position whose serialization was already seen is rejected,
counted as a duplicate, and not emitted. -/
theorem sampler_dedup {P M : Type} (env : Env P M) :
    (∀ (ds : List (Draw P)) (st0 : GenState),
      ((generate_boards env ds st0).1.map (fun b => env.fen b)).Nodup ∧
      (∀ b ∈ (generate_boards env ds st0).1, env.fen b ∉ st0.seen) ∧
      (∀ k ∈ st0.seen, k ∈ (generate_boards env ds st0).2.seen)) ∧
    (∀ (st : GenState) (d : Draw P),
      env.is_valid d.pos = true →
      0 < env.probe_dtz d.pos → env.probe_dtz d.pos ≤ 100 →
      env.fen (Board.mk d.pos (d.rand (100 - env.probe_dtz d.pos).toNat)) ∈ st.seen →
      gen_step env st d =
        (none, { st with stats := { st.stats with duplicate := st.stats.duplicate + 1 } })) :=
  ⟨fun ds st0 => generate_boards_inv env ds st0,
   fun st d h1 h2 h3 h4 => gen_step_duplicate env st d h1 h2 h3 h4⟩

/-- C8 witness: a draw whose serialization is already in the seen set is
rejected and counted as a duplicate. -/
theorem sampler_dedup_witness :
    gen_step envS { seen := ["7/0"], stats := Stats.mk 0 0 0 0 0 } dS =
      (none, { seen := ["7/0"], stats := Stats.mk 0 0 0 0 1 }) :=
  (sampler_dedup envS).2 { seen := ["7/0"], stats := Stats.mk 0 0 0 0 0 } dS
    (by decide) (by decide) (by decide) (by decide)

/-- Bind of a successful Except computation. -/
theorem ok_bind {alpha beta : Type} (a : alpha) (f : alpha → Except GenError beta) :
    (Except.ok a >>= f) = f a := rfl

/-- Bind of a failed Except computation. -/
theorem error_bind {alpha beta : Type} (e : GenError) (f : alpha → Except GenError beta) :
    ((Except.error e : Except GenError alpha) >>= f) = Except.error e := rfl

/-- The value of `child_dtm_core` on its non-aborting paths. -/
def coreVal {P M : Type} (env : Env P M) (b2 : Board P) : Option Int :=
  match child_dtm_core env b2 with
  | Except.ok v => v
  | Except.error _ => none

/-- The reply classification factors through the resulting board. -/
theorem child_eq_core {P M : Type} (env : Env P M) (b : Board P) (m : M) :
    child_dtm_if_lost env b m = child_dtm_core env (env.push b m) := rfl

/-- The classification value factors through the resulting board. -/
theorem child_val_eq_core {P M : Type} (env : Env P M) (b : Board P) (m : M) :
    childVal env b m = coreVal env (env.push b m) := rfl

/-- If `child_dtm_core` aborts, every condition of the assertion violation
holds on the resulting board. -/
theorem core_error_inv {P M : Type} (env : Env P M) (b2 : Board P) (e : GenError)
    (h : child_dtm_core env b2 = Except.error e) :
    env.is_game_over b2 = false ∧
    (b2.halfmove_clock : Int) - 100 ≤ env.probe_dtz b2.pos ∧
    env.probe_dtz b2.pos < 0 ∧
    0 ≤ env.probe_dtm b2.pos ∧ e = GenError.assertChildDtm := by
  simp only [child_dtm_core] at h
  split_ifs at h with h1 h2 h3
  simp_all

/-- If the assertion conditions do not all hold, `child_dtm_core` returns
its classification value. -/
theorem core_ok_of_not_violation {P M : Type} (env : Env P M) (b2 : Board P)
    (h : ¬(env.is_game_over b2 = false ∧
      (b2.halfmove_clock : Int) - 100 ≤ env.probe_dtz b2.pos ∧
      env.probe_dtz b2.pos < 0 ∧
      0 ≤ env.probe_dtm b2.pos)) :
    child_dtm_core env b2 = Except.ok (coreVal env b2) := by
  cases hres : child_dtm_core env b2 with
  | ok v => unfold coreVal; rw [hres]
  | error e =>
    obtain ⟨h1, h2, h3, h4, _⟩ := core_error_inv env b2 e hres
    exact absurd ⟨h1, h2, h3, h4⟩ h

/-- A reply on which the assertion does not fire is classified with its
value. -/
theorem child_ok_of_not_violation {P M : Type} (env : Env P M) (b : Board P) (m : M)
    (h : ¬child_assert_violation env b m) :
    child_dtm_if_lost env b m = Except.ok (childVal env b m) := by
  rw [child_eq_core, child_val_eq_core]
  exact core_ok_of_not_violation env (env.push b m) h

/-- A reply on which the assertion fires aborts the classification. -/
theorem child_error_of_violation {P M : Type} (env : Env P M) (b : Board P) (m : M)
    (h : child_assert_violation env b m) :
    child_dtm_if_lost env b m = Except.error GenError.assertChildDtm := by
  obtain ⟨h1, h2, h3, h4⟩ := h
  rw [child_eq_core]
  cases hres : child_dtm_core env (env.push b m) with
  | error e => rw [(core_error_inv env (env.push b m) e hres).2.2.2.2]
  | ok v =>
    exfalso
    simp only [child_dtm_core] at hres
    split_ifs at hres with ha hb hc <;> simp_all
    omega

/-- When no reply violates the assertion, the children dictionary is the
list of all classification values in legal-move order. -/
theorem collect_ok_of {P M : Type} (env : Env P M) (b : Board P) :
    ∀ ms : List M, (∀ m ∈ ms, ¬child_assert_violation env b m) →
      collectChildren env b ms = Except.ok (ms.map (fun m => (m, childVal env b m))) := by
  intro ms
  induction ms with
  | nil => intro _; rfl
  | cons m ms ih =>
    intro h
    have hm := child_ok_of_not_violation env b m (h m (List.mem_cons_self m ms))
    simp only [collectChildren]
    rw [hm, ok_bind, ih (fun m2 h2 => h m2 (List.mem_cons_of_mem m h2)), ok_bind]
    rfl

/-- When some reply violates the assertion, building the children dictionary
aborts with the assertion error. -/
theorem collect_error_of {P M : Type} (env : Env P M) (b : Board P) :
    ∀ ms : List M, (∃ m ∈ ms, child_assert_violation env b m) →
      collectChildren env b ms = Except.error GenError.assertChildDtm := by
  intro ms
  induction ms with
  | nil => intro h; simp at h
  | cons m ms ih =>
    intro h
    by_cases hv : child_assert_violation env b m
    · simp only [collectChildren]
      rw [child_error_of_violation env b m hv, error_bind]
    · obtain ⟨m2, hm2, hviol⟩ := h
      rcases List.mem_cons.mp hm2 with rfl | hm2
      · exact absurd hviol hv
      · simp only [collectChildren]
        rw [child_ok_of_not_violation env b m hv, ok_bind, ih ⟨m2, hm2, hviol⟩,
          error_bind]

/-- Only the empty list has no maximum. -/
theorem maxDtm_eq_none : ∀ (l : List Int), maxDtm l = none → l = [] := by
  intro l h
  cases l with
  | nil => rfl
  | cons a l2 =>
    exfalso
    simp only [maxDtm] at h
    cases hm : maxDtm l2 with
    | none => rw [hm] at h; simp at h
    | some y => rw [hm] at h; simp at h

/-- The maximum of a list is an element of it. -/
theorem maxDtm_mem : ∀ (l : List Int) (x : Int), maxDtm l = some x → x ∈ l := by
  intro l
  induction l with
  | nil => intro x h; simp [maxDtm] at h
  | cons a l ih =>
    intro x h
    simp only [maxDtm] at h
    cases h2 : maxDtm l with
    | none => rw [h2] at h; simp at h; simp [h]
    | some y =>
      rw [h2] at h
      simp only [Option.some.injEq] at h
      rcases max_choice a y with hc | hc
      · rw [hc] at h; simp [h]
      · rw [hc] at h
        exact List.mem_cons_of_mem a (h ▸ ih y h2)

/-- Every element of a list is at most its maximum. -/
theorem le_maxDtm : ∀ (l : List Int) (a x : Int), a ∈ l → maxDtm l = some x → a ≤ x := by
  intro l
  induction l with
  | nil => intro a x h; simp at h
  | cons b l ih =>
    intro a x ha h
    simp only [maxDtm] at h
    cases h2 : maxDtm l with
    | none =>
      rw [h2] at h
      simp only [Option.some.injEq] at h
      have hl := maxDtm_eq_none l h2
      subst hl
      rcases List.mem_singleton.mp ha with rfl
      omega
    | some y =>
      rw [h2] at h
      simp only [Option.some.injEq] at h
      rcases List.mem_cons.mp ha with rfl | ha
      · calc a ≤ max a y := le_max_left a y
          _ = x := h
      · calc a ≤ y := ih a y ha h2
          _ ≤ max b y := le_max_right b y
          _ = x := h

/-- The `bm` opcode as a function of the board: the legal moves classified
winning with the best (maximal) dtm value. -/
def bmOf {P M : Type} (env : Env P M) (b : Board P) (best : Int) : List M :=
  (env.legal_moves b.pos).filter (fun m => decide (childVal env b m = some best))

/-- The `am` opcode content as a function of the board: the legal moves
classified losing. -/
def amOf {P M : Type} (env : Env P M) (b : Board P) : List M :=
  (env.legal_moves b.pos).filter (fun m => decide (childVal env b m = (none : Option Int)))

/-- The annotation record emitted for a board whose best winning reply has
dtm `best`. -/
def infoOf {P M : Type} (env : Env P M) (b : Board P) (n : Nat) (best : Int) :
    EpdInfo M :=
  { id := env.format_id n,
    hmvc := if b.halfmove_clock ≠ 0 then some b.halfmove_clock else none,
    bm := bmOf env b best,
    am := if (amOf env b).isEmpty then none else some (amOf env b),
    dm := (env.probe_dtm b.pos + 1).tdiv 2,
    r50 := decide (env.probe_dtm b.pos < 1 - best) }

/-- The dtm values of the children, computed from the classification values
of the legal moves, are `winning_dtms`. -/
theorem children_filterMap_eq {P M : Type} (env : Env P M) (b : Board P) :
    (((env.legal_moves b.pos).map (fun m => (m, childVal env b m))).filterMap
      (fun p => p.2)) = winning_dtms env b := by
  rw [List.filterMap_map]
  rfl

/-- The `bm` computation over the children pairs equals `bmOf`. -/
theorem children_bm_eq {P M : Type} (env : Env P M) (b : Board P) (best : Int) :
    ((((env.legal_moves b.pos).map (fun m => (m, childVal env b m))).filter
        (fun p => decide (p.2 = some best))).map (fun p => p.1)) = bmOf env b best := by
  rw [List.filter_map, List.map_map]
  rw [show ((fun p : M × Option Int => p.1) ∘ (fun m : M => (m, childVal env b m))) =
    (fun m : M => m) from rfl]
  rw [List.map_id']
  rfl

/-- The `am` computation over the children pairs equals `amOf`. -/
theorem children_am_eq {P M : Type} (env : Env P M) (b : Board P) :
    ((((env.legal_moves b.pos).map (fun m => (m, childVal env b m))).filter
        (fun p => decide (p.2 = (none : Option Int)))).map (fun p => p.1)) =
      amOf env b := by
  rw [List.filter_map, List.map_map]
  rw [show ((fun p : M × Option Int => p.1) ∘ (fun m : M => (m, childVal env b m))) =
    (fun m : M => m) from rfl]
  rw [List.map_id']
  rfl

/-- Evaluation of the annotation tail when a best winning reply exists and
the parent assertion holds. -/
theorem annotate_core_eval {P M : Type} (env : Env P M) (b : Board P) (n : Nat)
    (best : Int) (hmax : maxDtm (winning_dtms env b) = some best)
    (h1 : 0 < env.probe_dtm b.pos) (h2 : env.probe_dtm b.pos ≤ 1 - best) :
    annotate_core env b n
      ((env.legal_moves b.pos).map (fun m => (m, childVal env b m))) =
      Except.ok (infoOf env b n best) := by
  unfold annotate_core
  rw [children_filterMap_eq, hmax]
  dsimp only
  rw [if_pos ⟨h1, h2⟩, children_bm_eq, children_am_eq]
  rfl

/-- Inversion of a successful annotation tail. -/
theorem annotate_core_inv {P M : Type} (env : Env P M) (b : Board P) (n : Nat)
    (info : EpdInfo M)
    (h : annotate_core env b n
      ((env.legal_moves b.pos).map (fun m => (m, childVal env b m))) =
      Except.ok info) :
    ∃ best, maxDtm (winning_dtms env b) = some best ∧
      0 < env.probe_dtm b.pos ∧ env.probe_dtm b.pos ≤ 1 - best ∧
      info = infoOf env b n best := by
  unfold annotate_core at h
  rw [children_filterMap_eq] at h
  cases hmax : maxDtm (winning_dtms env b) with
  | none => rw [hmax] at h; exact absurd h (by simp)
  | some best =>
    rw [hmax] at h
    dsimp only at h
    by_cases hpd : 0 < env.probe_dtm b.pos ∧ env.probe_dtm b.pos ≤ 1 - best
    · rw [if_pos hpd, children_bm_eq, children_am_eq] at h
      exact ⟨best, rfl, hpd.1, hpd.2, (Except.ok.inj h).symm⟩
    · rw [if_neg hpd] at h
      exact absurd h (by simp)

/-- Inversion of a successful annotation: no child assertion fired, some
reply is winning, the parent assertion held, and the record is `infoOf`. -/
theorem annotate_ok_inv {P M : Type} (env : Env P M) (b : Board P) (n : Nat)
    (info : EpdInfo M) (h : annotate_board env b n = Except.ok info) :
    (∀ m ∈ env.legal_moves b.pos, ¬child_assert_violation env b m) ∧
    ∃ best, maxDtm (winning_dtms env b) = some best ∧
      0 < env.probe_dtm b.pos ∧ env.probe_dtm b.pos ≤ 1 - best ∧
      info = infoOf env b n best := by
  have hall : ∀ m ∈ env.legal_moves b.pos, ¬child_assert_violation env b m := by
    by_contra hc
    push_neg at hc
    obtain ⟨m, hm, hviol⟩ := hc
    unfold annotate_board at h
    rw [collect_error_of env b (env.legal_moves b.pos) ⟨m, hm, hviol⟩,
      error_bind] at h
    exact absurd h (by simp)
  refine ⟨hall, ?_⟩
  unfold annotate_board at h
  rw [collect_ok_of env b (env.legal_moves b.pos) hall, ok_bind] at h
  exact annotate_core_inv env b n info h

/-- Evaluation of a successful annotation from its preconditions. -/
theorem annotate_ok_eval {P M : Type} (env : Env P M) (b : Board P) (n : Nat)
    (best : Int)
    (hall : ∀ m ∈ env.legal_moves b.pos, ¬child_assert_violation env b m)
    (hmax : maxDtm (winning_dtms env b) = some best)
    (h1 : 0 < env.probe_dtm b.pos) (h2 : env.probe_dtm b.pos ≤ 1 - best) :
    annotate_board env b n = Except.ok (infoOf env b n best) := by
  unfold annotate_board
  rw [collect_ok_of env b (env.legal_moves b.pos) hall, ok_bind]
  exact annotate_core_eval env b n best hmax h1 h2

/-- An environment with a single legal reply that is losing (the resulting
dtz is positive): no reply preserves the win. -/
def envD : Env Nat Nat :=
  { is_valid := fun _ => true,
    probe_dtz := fun p => if p = 0 then 60 else 5,
    probe_dtm := fun _ => 3,
    legal_moves := fun p => if p = 0 then [0] else [],
    push := fun b m => { pos := b.pos + 1 + m, halfmove_clock := b.halfmove_clock + 1 },
    is_game_over := fun _ => false,
    is_checkmate := fun _ => false,
    fen := fun b => toString b.pos ++ "/" ++ toString b.halfmove_clock,
    format_id := fun n => "id" ++ toString n }

/-- The parent board for `envD`. -/
def bD : Board Nat := { pos := 0, halfmove_clock := 0 }

/-- Like `envA` but with an even parent mate distance (dtm 4, children
dtm -3). -/
def envE : Env Nat Nat :=
  { is_valid := fun _ => true,
    probe_dtz := fun p => if p = 0 then 60 else -50,
    probe_dtm := fun p => if p = 0 then 4 else -3,
    legal_moves := fun p => if p = 0 then [0, 1] else [],
    push := fun b m => { pos := b.pos + 1 + m, halfmove_clock := b.halfmove_clock + 1 },
    is_game_over := fun _ => false,
    is_checkmate := fun _ => false,
    fen := fun b => toString b.pos ++ "/" ++ toString b.halfmove_clock,
    format_id := fun n => "id" ++ toString n }

/-- The parent board for `envE`. -/
def bE : Board Nat := { pos := 0, halfmove_clock := 0 }

/-- C4 (amended): annotation succeeds exactly when no reply triggers the
child dtm assertion, at least one reply is winning (so the `max()` has a
nonempty sequence), and the parent mate distance satisfies
`0 < parent_dtm <= 1 - best_child_dtm`; the run aborts whenever any of these
fails — including the empty-maximum abort, absent from the original claim,
when no legal reply is classified winning. -/
theorem annotate_ok_iff {P M : Type} (env : Env P M) (b : Board P) (n : Nat) :
    (annotate_board env b n).isOk = true ↔
      ((∀ m ∈ env.legal_moves b.pos, ¬child_assert_violation env b m) ∧
       ∃ best, maxDtm (winning_dtms env b) = some best ∧
         0 < env.probe_dtm b.pos ∧ env.probe_dtm b.pos ≤ 1 - best) := by
  constructor
  · intro h
    cases hres : annotate_board env b n with
    | error e => rw [hres] at h; simp [Except.isOk, Except.toBool] at h
    | ok info =>
      obtain ⟨hall, best, hmax, h1, h2, _⟩ := annotate_ok_inv env b n info hres
      exact ⟨hall, best, hmax, h1, h2⟩
  · rintro ⟨hall, ⟨best, hmax, h1, h2⟩⟩
    rw [annotate_ok_eval env b n best hall hmax h1 h2]
    rfl

/-- C4 counterexample: when every legal reply is losing, the annotation
aborts on the `max()` of an empty sequence even though neither assertion
condition of the claim holds: the single reply does not violate the child
dtm assertion, and there is no best child distance for the parent assertion
to be compared against. -/
theorem annotate_abort_cex :
    annotate_board envD bD 0 = Except.error GenError.noWinningMove ∧
    ¬child_assert_violation envD bD 0 ∧
    winning_dtms envD bD = [] := by
  decide

/-- C4 witness: a successful annotation in the well-behaved environment. -/
theorem annotate_ok_iff_witness : (annotate_board envA bA 0).isOk = true :=
  (annotate_ok_iff envA bA 0).mpr
    ⟨by decide, ⟨-2, by decide, by decide, by decide⟩⟩

/-- C5: for every emitted position the optimal-move set is non-empty and is
exactly the set of winning replies whose dtm value attains the maximum
(least negative, fastest-mating) value among all winning replies. -/
theorem optimal_moves_iff {P M : Type} (env : Env P M) (b : Board P) (n : Nat)
    (info : EpdInfo M) (best : Int)
    (h : annotate_board env b n = Except.ok info)
    (hbest : maxDtm (winning_dtms env b) = some best) :
    info.bm ≠ [] ∧
    info.bm = (env.legal_moves b.pos).filter
      (fun m => decide (childVal env b m = some best)) ∧
    (∃ m ∈ env.legal_moves b.pos, childVal env b m = some best) ∧
    (∀ m ∈ env.legal_moves b.pos, ∀ d2 : Int,
      childVal env b m = some d2 → d2 ≤ best) := by
  obtain ⟨hall, best2, hmax2, h1, h2, hinfo⟩ := annotate_ok_inv env b n info h
  have hbb : best2 = best := by
    rw [hmax2] at hbest
    exact Option.some.inj hbest
  subst hbb
  obtain ⟨m, hm, hv⟩ :=
    List.mem_filterMap.mp (maxDtm_mem (winning_dtms env b) best2 hmax2)
  refine ⟨?_, ?_, ⟨m, hm, hv⟩, ?_⟩
  · rw [hinfo]
    have hmem : m ∈ (infoOf env b n best2).bm :=
      List.mem_filter.mpr ⟨hm, by simp [hv]⟩
    exact List.ne_nil_of_mem hmem
  · rw [hinfo]
    rfl
  · intro m2 hm2 d2 hv2
    exact le_maxDtm (winning_dtms env b) d2 best2
      (List.mem_filterMap.mpr ⟨m2, hm2, hv2⟩) hmax2

/-- C5 witness: in the well-behaved environment both replies are winning
with the best dtm, so the optimal-move list is both of them. -/
theorem optimal_moves_witness :
    (infoOf envA bA 0 (-2)).bm ≠ [] ∧
    (infoOf envA bA 0 (-2)).bm = (envA.legal_moves bA.pos).filter
      (fun m => decide (childVal envA bA m = some (-2))) :=
  ⟨(optimal_moves_iff envA bA 0 (infoOf envA bA 0 (-2)) (-2)
      (by decide) (by decide)).1,
   (optimal_moves_iff envA bA 0 (infoOf envA bA 0 (-2)) (-2)
      (by decide) (by decide)).2.1⟩

/-- C6 (amended): the emitted `dm` field is `(parent_dtm + 1)` divided by 2
with truncation toward zero (Python `int((parent_dtm + 1) / 2)`), which for
the asserted-positive parent distance equals the ceiling of
`parent_dtm / 2` — not the ceiling of `(parent_dtm + 1) / 2`. -/
theorem dm_conversion {P M : Type} (env : Env P M) (b : Board P) (n : Nat)
    (info : EpdInfo M) (h : annotate_board env b n = Except.ok info) :
    info.dm = (env.probe_dtm b.pos + 1).tdiv 2 ∧
    info.dm = ceil_div (env.probe_dtm b.pos) 2 := by
  obtain ⟨_, best, hmax, h1, h2, hinfo⟩ := annotate_ok_inv env b n info h
  subst hinfo
  refine ⟨rfl, ?_⟩
  show (env.probe_dtm b.pos + 1).tdiv 2 = ceil_div (env.probe_dtm b.pos) 2
  have h3 : (0:Int) ≤ env.probe_dtm b.pos + 1 := by omega
  rw [Int.tdiv_eq_ediv h3 (by norm_num), ceil_div,
    Int.fdiv_eq_ediv _ (by norm_num)]
  omega

/-- C6 counterexample: with parent mate distance 4 the emitted `dm` is 2,
but integer division of `parent_dtm + 1 = 5` by 2 rounding toward positive
infinity gives 3: the conversion truncates, it does not round up. -/
theorem dm_cex :
    annotate_board envE bE 0 = Except.ok (infoOf envE bE 0 (-3)) ∧
    (infoOf envE bE 0 (-3)).dm = 2 ∧
    ceil_div (envE.probe_dtm bE.pos + 1) 2 = 3 := by
  decide

/-- C6 witness: the conversion evaluated at parent mate distance 3. -/
theorem dm_conversion_witness :
    (infoOf envA bA 0 (-2)).dm = (envA.probe_dtm bA.pos + 1).tdiv 2 ∧
    (infoOf envA bA 0 (-2)).dm = ceil_div (envA.probe_dtm bA.pos) 2 :=
  dm_conversion envA bA 0 (infoOf envA bA 0 (-2)) (by decide)

/-- C7: the `R50` flag is present in the record exactly when the parent mate
distance is strictly less than one ply more than the best child distance
found by the 50-move-bounded analysis. -/
theorem r50_flag_iff {P M : Type} (env : Env P M) (b : Board P) (n : Nat)
    (info : EpdInfo M) (best : Int)
    (h : annotate_board env b n = Except.ok info)
    (hbest : maxDtm (winning_dtms env b) = some best) :
    (info.r50 = true ↔ env.probe_dtm b.pos < 1 - best) := by
  obtain ⟨_, best2, hmax2, h1, h2, hinfo⟩ := annotate_ok_inv env b n info h
  have hbb : best2 = best := by
    rw [hmax2] at hbest
    exact Option.some.inj hbest
  subst hbb
  subst hinfo
  simp [infoOf]

/-- C7 witness: the flag is absent when the parent mate distance equals one
ply more than the best child distance. -/
theorem r50_flag_witness :
    ((infoOf envA bA 0 (-2)).r50 = true ↔ envA.probe_dtm bA.pos < 1 - (-2)) :=
  r50_flag_iff envA bA 0 (infoOf envA bA 0 (-2)) (-2) (by decide) (by decide)

end Tbgen
